import Mathlib

/-!
# Verification of the go-wiki rendering pipeline, persistence and routing

Shallow embedding of the Go wiki (main variant `part_000`, with the
`wiki.go` variant coinciding on the shared handlers).  Text and byte
strings are modelled as `List Char`; the file system is an association
list from paths to contents; HTTP responses are a small inductive.

The embedded pieces:
* `htmlEscape`       — `template.HTMLEscapeString` (Go `text/template`
  `htmlEscaper`: NUL, `"`, `'`, `&`, `<`, `>` are rewritten, all other
  characters pass through unchanged);
* `replaceLinks`     — `linkPath.ReplaceAllFunc` for the anchored scan of
  `\[([a-zA-Z0-9]+)\]`: leftmost-first, non-overlapping, greedy
  alphanumeric run, resuming after each consumed match (fuel-based
  recursion, fuel = length, so the function is structural and computable);
* `render`           — the body of `viewHandler` lines 77–83: escape, then
  link substitution;
* `Page.save` / `loadPage` — file persistence under `data/<title>.txt`;
* `viewHandler`, `editHandler`, `saveHandler`, `makeHandler`,
  `validPathMatch` — the HTTP handlers and the `validPath` regex
  `^/(edit|save|view)/([a-zA-Z0-9]+)$`;
* `muxDispatch`      — `net/http` `ServeMux` dispatch for the patterns
  registered in `main`.
-/

/-- Character class `[a-zA-Z0-9]` used by both `linkPath` and `validPath`. -/
def isAlnum (c : Char) : Bool :=
  ('a' ≤ c && c ≤ 'z') || ('A' ≤ c && c ≤ 'Z') || ('0' ≤ c && c ≤ '9')

/-- One character of Go's `template.HTMLEscapeString` (`htmlEscaper` in
`text/template/funcs.go`): NUL becomes U+FFFD, the five special characters
become entities, everything else is returned unchanged. -/
def escapeChar (c : Char) : List Char :=
  if c = '\x00' then ['�']
  else if c = '"' then "&#34;".toList
  else if c = '\'' then "&#39;".toList
  else if c = '&' then "&amp;".toList
  else if c = '<' then "&lt;".toList
  else if c = '>' then "&gt;".toList
  else [c]

/-- `template.HTMLEscapeString` over a whole text. -/
def htmlEscape : List Char → List Char
  | [] => []
  | c :: cs => escapeChar c ++ htmlEscape cs

/-- Maximal alphanumeric run at the head of the text and the remaining
suffix: the greedy `[a-zA-Z0-9]+` step of the `linkPath` scan. -/
def alnumRun : List Char → List Char × List Char
  | [] => ([], [])
  | c :: cs =>
    if isAlnum c then
      (c :: (alnumRun cs).1, (alnumRun cs).2)
    else
      ([], c :: cs)

/-- Does the text start with the closing bracket of a marker? -/
def headIsRB : List Char → Bool
  | ']' :: _ => true
  | _ => false

/-- The replacement produced for a matched marker in `viewHandler`:
`"<a href=\"/view/" + matched[1] + "\">" + matched[1] + "</a>"`. -/
def anchor (t : List Char) : List Char :=
  "<a href=\"/view/".toList ++ t ++ "\">".toList ++ t ++ "</a>".toList

/-- Fuel-based scanner implementing `linkPath.ReplaceAllFunc` on the
escaped body: at each position, a match requires a literal `[`, a
non-empty maximal alphanumeric run, and a closing `]`; the matched span
is replaced by `anchor` and scanning resumes after it, otherwise the
head character is emitted literally.  The fuel only forces termination:
with fuel ≥ length the scan never runs out (`replaceLinksAux_norm`). -/
def replaceLinksAux : Nat → List Char → List Char
  | _, [] => []
  | 0, s => s
  | f + 1, c :: cs =>
    if (c == '[') && !(alnumRun cs).1.isEmpty && headIsRB (alnumRun cs).2 then
      anchor (alnumRun cs).1 ++ replaceLinksAux f (alnumRun cs).2.tail
    else
      c :: replaceLinksAux f cs

/-- `linkPath.ReplaceAllFunc(escapedBody, ...)` from `viewHandler`. -/
def replaceLinks (s : List Char) : List Char :=
  replaceLinksAux s.length s

/-- The rendering pipeline of `viewHandler` lines 77–83: HTML-escape the
raw body, then substitute link markers in the escaped text. -/
def render (raw : List Char) : List Char :=
  replaceLinks (htmlEscape raw)

theorem alnumRun_append (s : List Char) : (alnumRun s).1 ++ (alnumRun s).2 = s := by
  induction s with
  | nil => rfl
  | cons c cs ih =>
    unfold alnumRun
    split <;> simp [ih]

theorem alnumRun_fst_alnum (s : List Char) (c : Char) (h : c ∈ (alnumRun s).1) :
    isAlnum c = true := by
  induction s with
  | nil => cases h
  | cons d ds ih =>
    unfold alnumRun at h
    split at h
    · rcases List.mem_cons.mp h with rfl | h2
      · assumption
      · exact ih h2
    · cases h

theorem alnumRun_snd_le (s : List Char) : (alnumRun s).2.length ≤ s.length := by
  conv_rhs => rw [← alnumRun_append s]
  simp

theorem alnumRun_of_alnum (t rest : List Char) (h : ∀ c ∈ t, isAlnum c = true) :
    alnumRun (t ++ ']' :: rest) = (t, ']' :: rest) := by
  induction t with
  | nil =>
    simp only [List.nil_append]
    unfold alnumRun
    simp [isAlnum]
  | cons c cs ih =>
    have hc : isAlnum c = true := h c (List.mem_cons_self c cs)
    simp only [List.cons_append]
    unfold alnumRun
    rw [ih (fun d hd => h d (List.mem_cons_of_mem c hd))]
    simp [hc]

theorem replaceLinksAux_nil (f : Nat) : replaceLinksAux f [] = [] := by
  cases f <;> rfl

theorem replaceLinksAux_succ (f : Nat) (c : Char) (cs : List Char) :
    replaceLinksAux (f + 1) (c :: cs)
      = if (c == '[') && !(alnumRun cs).1.isEmpty && headIsRB (alnumRun cs).2 then
          anchor (alnumRun cs).1 ++ replaceLinksAux f (alnumRun cs).2.tail
        else
          c :: replaceLinksAux f cs := rfl

theorem replaceLinksAux_norm (f : Nat) (s : List Char) (hs : s.length ≤ f) :
    replaceLinksAux f s = replaceLinksAux s.length s := by
  induction f using Nat.strong_induction_on generalizing s with
  | _ f ih =>
    cases s with
    | nil => rw [replaceLinksAux_nil, replaceLinksAux_nil]
    | cons c cs =>
      cases f with
      | zero => simp at hs
      | succ f =>
        have hcs : cs.length ≤ f := Nat.lt_succ_iff.mp hs
        have hlen : (c :: cs).length = cs.length + 1 := rfl
        rw [hlen, replaceLinksAux_succ, replaceLinksAux_succ]
        have htail : (alnumRun cs).2.tail.length ≤ cs.length :=
          le_trans (List.length_tail _ ▸ Nat.sub_le _ _) (alnumRun_snd_le cs)
        by_cases hb : ((c == '[') && !(alnumRun cs).1.isEmpty && headIsRB (alnumRun cs).2) = true
        · rw [if_pos hb, if_pos hb]
          have h1 : replaceLinksAux f (alnumRun cs).2.tail
              = replaceLinksAux (alnumRun cs).2.tail.length (alnumRun cs).2.tail :=
            ih f (Nat.lt_succ_self f) _ (le_trans htail hcs)
          have h2 : replaceLinksAux cs.length (alnumRun cs).2.tail
              = replaceLinksAux (alnumRun cs).2.tail.length (alnumRun cs).2.tail :=
            ih cs.length (Nat.lt_succ_of_le hcs) _ htail
          rw [h1, h2]
        · rw [if_neg hb, if_neg hb]
          have h1 : replaceLinksAux f cs = replaceLinksAux cs.length cs :=
            ih f (Nat.lt_succ_self f) cs hcs
          have h2 : replaceLinksAux cs.length cs = replaceLinksAux cs.length cs := rfl
          rw [h1]

theorem replaceLinks_nil : replaceLinks [] = [] := rfl

/-- One scan step: the definitional unfolding of `replaceLinks` on a
non-empty text. -/
theorem replaceLinks_cons (c : Char) (cs : List Char) :
    replaceLinks (c :: cs)
      = if (c == '[') && !(alnumRun cs).1.isEmpty && headIsRB (alnumRun cs).2 then
          anchor (alnumRun cs).1 ++ replaceLinks (alnumRun cs).2.tail
        else
          c :: replaceLinks cs := by
  show replaceLinksAux (cs.length + 1) (c :: cs) = _
  rw [replaceLinksAux_succ]
  have htail : (alnumRun cs).2.tail.length ≤ cs.length :=
    le_trans (List.length_tail _ ▸ Nat.sub_le _ _) (alnumRun_snd_le cs)
  by_cases hb : ((c == '[') && !(alnumRun cs).1.isEmpty && headIsRB (alnumRun cs).2) = true
  · rw [if_pos hb, if_pos hb, replaceLinksAux_norm cs.length _ htail]
    rfl
  · rw [if_neg hb, if_neg hb]
    rfl

/-- A consumed match: a literal `[`, a non-empty alphanumeric title, a
closing `]` — the scan replaces the whole span and resumes after it. -/
theorem replaceLinks_consume (t rest : List Char) (ht : t ≠ [])
    (ha : ∀ c ∈ t, isAlnum c = true) :
    replaceLinks ('[' :: (t ++ ']' :: rest)) = anchor t ++ replaceLinks rest := by
  rw [replaceLinks_cons, alnumRun_of_alnum t rest ha]
  cases t with
  | nil => exact absurd rfl ht
  | cons c cs => simp [headIsRB]

/-- A head character other than `[` is emitted literally. -/
theorem replaceLinks_cons_ne (c : Char) (cs : List Char) (hc : c ≠ '[') :
    replaceLinks (c :: cs) = c :: replaceLinks cs := by
  rw [replaceLinks_cons, if_neg]
  simp [hc]

/-- A `[` that does not open a well-formed marker is emitted literally. -/
theorem replaceLinks_lb_skip (cs : List Char)
    (h : (!(alnumRun cs).1.isEmpty && headIsRB (alnumRun cs).2) = false) :
    replaceLinks ('[' :: cs) = '[' :: replaceLinks cs := by
  rw [replaceLinks_cons, if_neg]
  simp only [Bool.and_assoc] at h ⊢
  simp [h]

/-- Text without `[` passes through the link scan unchanged. -/
theorem replaceLinks_no_lb (s : List Char) (h : '[' ∉ s) : replaceLinks s = s := by
  induction s with
  | nil => rfl
  | cons c cs ih =>
    have hc : c ≠ '[' := fun hcc => h (hcc ▸ List.mem_cons_self c cs)
    rw [replaceLinks_cons_ne c cs hc, ih (fun hm => h (List.mem_cons_of_mem c hm))]

theorem escapeChar_lb (c d : Char) (h : d ∈ escapeChar c) (hd : d = '[') : c = '[' := by
  subst hd
  unfold escapeChar at h
  split at h
  · simp at h
  · split at h
    · simp at h
    · split at h
      · simp at h
      · split at h
        · simp at h
        · split at h
          · simp at h
          · split at h
            · simp at h
            · rcases List.mem_singleton.mp h with rfl
              rfl

theorem htmlEscape_no_lb (raw : List Char) (h : '[' ∉ raw) : '[' ∉ htmlEscape raw := by
  induction raw with
  | nil => simp [htmlEscape]
  | cons c cs ih =>
    intro hm
    rcases List.mem_append.mp hm with h1 | h2
    · exact h (escapeChar_lb c '[' h1 rfl ▸ List.mem_cons_self c cs)
    · exact ih (fun hm2 => h (List.mem_cons_of_mem c hm2)) h2

/-- No escaped character expands to text containing a live `<`, `>`,
double quote or single quote. -/
theorem escapeChar_safe (c : Char) :
    (escapeChar c).all
      (fun d => !(d == '<') && !(d == '>') && !(d == '"') && !(d == '\'')) = true := by
  unfold escapeChar
  split
  · decide
  · split
    · decide
    · split
      · decide
      · split
        · decide
        · split
          · decide
          · split
            · decide
            · rename_i h0 hq ha hm hl hg
              simp [List.all_cons, hq, ha, hl, hg]

theorem htmlEscape_safe (raw : List Char) :
    (htmlEscape raw).all
      (fun d => !(d == '<') && !(d == '>') && !(d == '"') && !(d == '\'')) = true := by
  induction raw with
  | nil => rfl
  | cons c cs ih =>
    show ((escapeChar c ++ htmlEscape cs).all _) = true
    rw [List.all_append, escapeChar_safe, ih]
    rfl

/-- Spec-side description of a marker match starting at the head of the
text: the literal `[`, one or more `[a-zA-Z0-9]` characters, the literal
`]`, with `rest` the text after the consumed span. -/
def specMatchHead (s t rest : List Char) : Prop :=
  s = '[' :: (t ++ ']' :: rest) ∧ t ≠ [] ∧ ∀ c ∈ t, isAlnum c = true

theorem headIsRB_iff (r : List Char) : headIsRB r = true ↔ ∃ r2, r = ']' :: r2 := by
  cases r with
  | nil => simp [headIsRB]
  | cons x xs =>
    by_cases hx : x = ']'
    · subst hx
      simp [headIsRB]
    · constructor
      · intro h
        unfold headIsRB at h
        split at h
        · rename_i heq
          exact absurd (List.cons.injEq .. ▸ heq) (by simp [hx])
        · cases h
      · rintro ⟨r2, heq⟩
        exact absurd (List.cons.injEq .. ▸ heq).1 hx

/-- When no marker matches at the head, the scan emits the head character
literally and continues. -/
theorem replaceLinks_nomatch (c : Char) (cs : List Char)
    (h : ¬ ∃ t rest, specMatchHead (c :: cs) t rest) :
    replaceLinks (c :: cs) = c :: replaceLinks cs := by
  by_cases hc : c = '['
  · subst hc
    cases hb : (!(alnumRun cs).1.isEmpty && headIsRB (alnumRun cs).2) with
    | false => exact replaceLinks_lb_skip cs hb
    | true =>
      exfalso
      rcases Bool.and_eq_true_iff.mp hb with ⟨hne, hrb⟩
      rcases (headIsRB_iff _).mp hrb with ⟨r2, hr2⟩
      refine h ⟨(alnumRun cs).1, r2, ?_, ?_, ?_⟩
      · have hcs : cs = (alnumRun cs).1 ++ ']' :: r2 := by
          conv_lhs => rw [← alnumRun_append cs, hr2]
        exact congrArg (List.cons '[') hcs
      · intro hnil
        rw [hnil] at hne
        cases hne
      · exact fun d hd => alnumRun_fst_alnum cs d hd
  · exact replaceLinks_cons_ne c cs hc

/-- C1: in `viewHandler` the raw body is HTML-escaped before link
detection: for the input `"<script>[X]</script>"` the display body is
exactly the escaped script tags around the anchor generated from `[X]`,
and, in general, the escaped text that link substitution operates on
contains no live `<`, `>`, `"` or `'` — no raw-body character sequence
survives as markup other than the generated anchors. -/
theorem C1_escaping_precedes_linking :
    render "<script>[X]</script>".toList
        = "&lt;script&gt;".toList ++ anchor ['X'] ++ "&lt;/script&gt;".toList
    ∧ ∀ raw : List Char,
        (htmlEscape raw).all
          (fun d => !(d == '<') && !(d == '>') && !(d == '"') && !(d == '\'')) = true :=
  ⟨by decide, htmlEscape_safe⟩

/-- C2: each matched marker span `[title]` is replaced by exactly the
anchor `<a href="/view/title">title</a>`, with literal spans and anchors
concatenated in original order; on `"See [Home] and [Page2]."` this
yields precisely the two expected anchors with the surrounding literal
text preserved. -/
theorem C2_link_substitution :
    (∀ t rest : List Char, t ≠ [] → (∀ c ∈ t, isAlnum c = true) →
        replaceLinks ('[' :: (t ++ ']' :: rest)) = anchor t ++ replaceLinks rest)
    ∧ render "See [Home] and [Page2].".toList
        = "See ".toList ++ anchor "Home".toList ++ " and ".toList
          ++ anchor "Page2".toList ++ ".".toList
    ∧ anchor "Home".toList = "<a href=\"/view/Home\">Home</a>".toList :=
  ⟨replaceLinks_consume, by decide, by decide⟩

theorem C2_link_substitution_witness :
    ("Home".toList ≠ [] ∧ ∀ c ∈ "Home".toList, isAlnum c = true)
    ∧ replaceLinks ('[' :: ("Home".toList ++ ']' :: []))
        = anchor "Home".toList ++ replaceLinks [] :=
  ⟨⟨by decide, by decide⟩,
    C2_link_substitution.1 "Home".toList [] (by decide) (by decide)⟩

/-- C3: the link detector matches exactly the spans `[` + non-empty
alphanumeric run + `]` (captured title = the run), leftmost-first and
non-overlapping, resuming right after each consumed match; empty
brackets and brackets holding a non-alphanumeric character never match
and stay in the text literally. -/
theorem C3_marker_matching :
    (∀ s t rest : List Char, specMatchHead s t rest →
        replaceLinks s = anchor t ++ replaceLinks rest)
    ∧ (∀ (c : Char) (cs : List Char), (¬ ∃ t rest, specMatchHead (c :: cs) t rest) →
        replaceLinks (c :: cs) = c :: replaceLinks cs)
    ∧ render "[]".toList = "[]".toList
    ∧ render "[a b]".toList = "[a b]".toList
    ∧ render "[[ab]".toList = '[' :: anchor "ab".toList := by
  refine ⟨?_, replaceLinks_nomatch, by decide, by decide, by decide⟩
  rintro s t rest ⟨rfl, ht, ha⟩
  exact replaceLinks_consume t rest ht ha

theorem C3_marker_matching_witness :
    (specMatchHead "[A]x".toList ['A'] ['x']
      ∧ replaceLinks "[A]x".toList = anchor ['A'] ++ replaceLinks ['x'])
    ∧ ((¬ ∃ t rest, specMatchHead "x[".toList t rest)
      ∧ replaceLinks "x[".toList = 'x' :: replaceLinks ['[']) := by
  have hm : specMatchHead "[A]x".toList ['A'] ['x'] := by
    refine ⟨by decide, by decide, by decide⟩
  have hn : ¬ ∃ t rest, specMatchHead "x[".toList t rest := by
    rintro ⟨t, rest, heq, -, -⟩
    have : 'x' = '[' := (List.cons.injEq .. ▸ heq).1
    cases this
  exact ⟨⟨hm, C3_marker_matching.1 _ _ _ hm⟩,
    ⟨hn, C3_marker_matching.2.1 'x' ['['] hn⟩⟩

/-- C4: a raw body containing neither `[` nor `]` renders to exactly its
HTML-escaped form, unchanged by the link pass. -/
theorem C4_literal_roundtrip (raw : List Char) (h1 : '[' ∉ raw) (_h2 : ']' ∉ raw) :
    render raw = htmlEscape raw :=
  replaceLinks_no_lb (htmlEscape raw) (htmlEscape_no_lb raw h1)

theorem C4_literal_roundtrip_witness :
    ('[' ∉ "a<b&c".toList ∧ ']' ∉ "a<b&c".toList)
    ∧ render "a<b&c".toList = htmlEscape "a<b&c".toList :=
  ⟨⟨by decide, by decide⟩, C4_literal_roundtrip "a<b&c".toList (by decide) (by decide)⟩

/-- The `Page` struct of the main variant: `Title`, `Body`, and the
derived `DisplayBody` (zero value: the empty string). -/
structure Page where
  title : List Char
  body : List Char
  displayBody : List Char
deriving DecidableEq

/-- The file system seen through `ioutil` in this program: an
association list from paths to file contents, most recent write first. -/
abbrev Store : Type := List (List Char × List Char)

/-- `ioutil.ReadFile`: contents of the most recent write to the path,
or failure when the path was never written. -/
def readFile : Store → List Char → Option (List Char)
  | [], _ => none
  | (q, v) :: rest, p => if q = p then some v else readFile rest p

/-- A successful `ioutil.WriteFile`: record the new contents under the
path, shadowing any previous write. -/
def writeFile (st : Store) (p v : List Char) : Store :=
  (p, v) :: st

/-- The path both `Page.save` and `loadPage` use in the main variant:
`"data/" + title + ".txt"` (the `wiki.go` variant drops the `data/`
directory; the file name `<title>.txt` is the same in both). -/
def pagePath (title : List Char) : List Char :=
  "data/".toList ++ title ++ ".txt".toList

/-- `loadPage`: read `data/<title>.txt`; on read failure propagate the
failure, otherwise build the page (DisplayBody at its zero value). -/
def loadPage (st : Store) (title : List Char) : Option Page :=
  match readFile st (pagePath title) with
  | none => none
  | some b => some { title := title, body := b, displayBody := [] }

/-- Outcome of the underlying `ioutil.WriteFile` call, an environment
choice: success, or an I/O error carrying its message. -/
inductive WriteOutcome where
  | ok : WriteOutcome
  | ioError : List Char → WriteOutcome

/-- `Page.save`: write the raw body bytes verbatim to
`data/<title>.txt`, returning the write error if the write failed. -/
def Page.save (p : Page) (st : Store) (outcome : WriteOutcome) :
    Store × Option (List Char) :=
  match outcome with
  | WriteOutcome.ok => (writeFile st (pagePath p.title) p.body, none)
  | WriteOutcome.ioError e => (st, some e)

/-- What a handler writes to the `http.ResponseWriter`: a template
rendering, a redirect with its status code, an `http.Error`, or
`http.NotFound`. -/
inductive Response where
  | renderTmpl : List Char → Page → Response
  | redirect : List Char → Nat → Response
  | httpError : List Char → Nat → Response
  | notFound : Response
deriving DecidableEq

/-- `editHandler`: load the page; on load failure fall back to
`&Page{Title: title}` (empty body); render the edit layout either way. -/
def editHandler (st : Store) (title : List Char) : Response :=
  match loadPage st title with
  | some p => Response.renderTmpl "edit".toList p
  | none => Response.renderTmpl "edit".toList { title := title, body := [], displayBody := [] }

/-- `saveHandler`: build the page from the submitted form body, save it,
and either surface the write error as a 500 or redirect to the view. -/
def saveHandler (st : Store) (title body : List Char) (outcome : WriteOutcome) :
    Store × Response :=
  let p : Page := { title := title, body := body, displayBody := [] }
  match Page.save p st outcome with
  | (st2, some err) => (st2, Response.httpError err 500)
  | (st2, none) => (st2, Response.redirect ("/view/".toList ++ title) 302)

/-- `viewHandler` (main variant): load the page; on failure redirect to
the editor; otherwise set `DisplayBody` to the rendered body and render
the view layout.  The handler never writes to the store. -/
def viewHandler (st : Store) (title : List Char) : Store × Response :=
  match loadPage st title with
  | none => (st, Response.redirect ("/edit/".toList ++ title) 302)
  | some p =>
    (st, Response.renderTmpl "view".toList
      { title := p.title, body := p.body, displayBody := render p.body })

/-- The display body carried by a response, when it renders a template. -/
def responseDisplay : Response → Option (List Char)
  | Response.renderTmpl _ p => some p.displayBody
  | _ => none

/-- `validPath.FindStringSubmatch` for the anchored regex
`^/(edit|save|view)/([a-zA-Z0-9]+)$`: the two capture groups on a
match, `none` otherwise.  The three alternatives start with distinct
characters, so the alternation is unambiguous; the anchored greedy
`[a-zA-Z0-9]+` forces the whole remainder to be a non-empty
alphanumeric run. -/
def validPathMatch : List Char → Option (List Char × List Char)
  | '/' :: 'e' :: 'd' :: 'i' :: 't' :: '/' :: t =>
    if !t.isEmpty && t.all isAlnum then some ("edit".toList, t) else none
  | '/' :: 's' :: 'a' :: 'v' :: 'e' :: '/' :: t =>
    if !t.isEmpty && t.all isAlnum then some ("save".toList, t) else none
  | '/' :: 'v' :: 'i' :: 'e' :: 'w' :: '/' :: t =>
    if !t.isEmpty && t.all isAlnum then some ("view".toList, t) else none
  | _ => none

/-- `makeHandler`: run `validPath` against the request path; on no match
answer `http.NotFound` without calling the inner handler, otherwise call
it with the second capture group as the title. -/
def makeHandler (fn : List Char → Response) (path : List Char) : Response :=
  match validPathMatch path with
  | none => Response.notFound
  | some m => fn m.2

/-- `indexHandler`: unconditionally redirect to `/view/index` with
`http.StatusFound` (302). -/
def indexHandler : Response :=
  Response.redirect "/view/index".toList 302

/-- Where `ServeMux` sends a request, for the patterns registered in
`main`. -/
inductive RouteTarget where
  | slashRedirect : List Char → RouteTarget
  | toIndex : RouteTarget
  | toView : RouteTarget
  | toEdit : RouteTarget
  | toSave : RouteTarget
  | toStatic : RouteTarget
deriving DecidableEq

/-- `net/http` `ServeMux` dispatch for the patterns registered in
`main`: `"/"`, `"/view/"`, `"/edit/"`, `"/save/"`, `"/static/"`.  Per
the documented `ServeMux` semantics, a registered subtree root requested
without its trailing slash is answered with a 301 redirect that adds the
slash; otherwise the longest registered pattern matching the path wins,
with `"/"` matching every path.  (`ServeMux` also 301-redirects paths
that are not in canonical form; the model covers canonical paths.) -/
def muxDispatch (p : List Char) : RouteTarget :=
  if p == "/view".toList || p == "/edit".toList
      || p == "/save".toList || p == "/static".toList then
    RouteTarget.slashRedirect (p ++ ['/'])
  else if "/view/".toList.isPrefixOf p then RouteTarget.toView
  else if "/edit/".toList.isPrefixOf p then RouteTarget.toEdit
  else if "/save/".toList.isPrefixOf p then RouteTarget.toSave
  else if "/static/".toList.isPrefixOf p then RouteTarget.toStatic
  else RouteTarget.toIndex

theorem isEmpty_false_ne_nil (l : List Char) (h : l.isEmpty = false) : l ≠ [] := by
  cases l with
  | nil => simp at h
  | cons a as => simp

/-- C5: when the load fails, `editHandler` renders the edit layout for a
page with the requested title and an empty body; it never surfaces the
load failure — every run of `editHandler` renders the edit layout. -/
theorem C5_edit_fallback :
    (∀ (st : Store) (title : List Char), loadPage st title = none →
        editHandler st title
          = Response.renderTmpl "edit".toList
              { title := title, body := [], displayBody := [] })
    ∧ ∀ (st : Store) (title : List Char),
        ∃ p, editHandler st title = Response.renderTmpl "edit".toList p := by
  constructor
  · intro st title h
    simp [editHandler, h]
  · intro st title
    cases hl : loadPage st title with
    | none =>
      exact ⟨{ title := title, body := [], displayBody := [] }, by simp [editHandler, hl]⟩
    | some p => exact ⟨p, by simp [editHandler, hl]⟩

theorem C5_edit_fallback_witness :
    loadPage [] "NoSuchPage".toList = none
    ∧ editHandler [] "NoSuchPage".toList
        = Response.renderTmpl "edit".toList
            { title := "NoSuchPage".toList, body := [], displayBody := [] } :=
  ⟨rfl, C5_edit_fallback.1 [] "NoSuchPage".toList rfl⟩

/-- C6: `saveHandler` overwrites the stored content with the submitted
body unconditionally; a failed write is surfaced as a 500 with the error
message and produces no redirect, while a successful write redirects to
`/view/<title>` and leaves the submitted body readable at the page's
path. -/
theorem C6_save_error_handling :
    (∀ (st : Store) (title body : List Char),
        saveHandler st title body WriteOutcome.ok
          = (writeFile st (pagePath title) body,
             Response.redirect ("/view/".toList ++ title) 302))
    ∧ (∀ (st : Store) (title body err : List Char),
        saveHandler st title body (WriteOutcome.ioError err)
          = (st, Response.httpError err 500))
    ∧ (∀ (st : Store) (title body : List Char),
        readFile (saveHandler st title body WriteOutcome.ok).1 (pagePath title)
          = some body) := by
  refine ⟨fun st title body => rfl, fun st title body err => rfl,
    fun st title body => ?_⟩
  show readFile (writeFile st (pagePath title) body) (pagePath title) = some body
  simp [readFile, writeFile]

/-- C7: persistence is a verbatim round-trip: a successful save writes
exactly the raw body bytes to the single path `data/<title>.txt`,
touches no other path, and a subsequent `loadPage` returns the same
bytes unchanged. -/
theorem C7_persistence_roundtrip (st : Store) (title body : List Char) :
    (Page.save { title := title, body := body, displayBody := [] } st
        WriteOutcome.ok).1
      = writeFile st (pagePath title) body
    ∧ readFile (writeFile st (pagePath title) body) (pagePath title) = some body
    ∧ (∀ q, q ≠ pagePath title →
        readFile (writeFile st (pagePath title) body) q = readFile st q)
    ∧ loadPage (writeFile st (pagePath title) body) title
        = some { title := title, body := body, displayBody := [] } := by
  refine ⟨rfl, by simp [readFile, writeFile], ?_, by simp [loadPage, readFile, writeFile]⟩
  intro q hq
  simp [readFile, writeFile, Ne.symm hq]

theorem C7_persistence_roundtrip_witness :
    ("q".toList ≠ pagePath "A".toList)
    ∧ readFile (writeFile [] (pagePath "A".toList) "b".toList) "q".toList
        = readFile [] "q".toList :=
  ⟨by decide,
    (C7_persistence_roundtrip [] "A".toList "b".toList).2.2.1 "q".toList (by decide)⟩

/-- C8: the wrapped handler is invoked exactly on paths matched by
`^/(edit|save|view)/([a-zA-Z0-9]+)$`, receiving the second capture group
— always a non-empty alphanumeric string — as the title; every other
path is answered with 404 Not Found and the inner handler is never
called (the response is `notFound` for every inner handler). -/
theorem C8_router_guard :
    (∀ (fn : List Char → Response) (p : List Char), validPathMatch p = none →
        makeHandler fn p = Response.notFound)
    ∧ (∀ (fn : List Char → Response) (p v t : List Char),
        validPathMatch p = some (v, t) →
          makeHandler fn p = fn t
          ∧ t ≠ [] ∧ t.all isAlnum = true
          ∧ p = '/' :: (v ++ '/' :: t)
          ∧ (v = "edit".toList ∨ v = "save".toList ∨ v = "view".toList))
    ∧ (∀ v t : List Char,
        (v = "edit".toList ∨ v = "save".toList ∨ v = "view".toList) →
        t ≠ [] → t.all isAlnum = true →
        validPathMatch ('/' :: (v ++ '/' :: t)) = some (v, t)) := by
  refine ⟨?_, ?_, ?_⟩
  · intro fn p h
    simp [makeHandler, h]
  · intro fn p v t h
    have hcall : makeHandler fn p = fn t := by simp [makeHandler, h]
    unfold validPathMatch at h
    split at h
    · split at h
      · rename_i t0 hcond
        have hcond2 : t0.isEmpty = false ∧ t0.all isAlnum = true := by
          simpa using hcond
        have hpair := Option.some.inj h
        obtain ⟨hv, htt⟩ : "edit".toList = v ∧ t0 = t :=
          ⟨congrArg Prod.fst hpair, congrArg Prod.snd hpair⟩
        subst hv
        subst htt
        exact ⟨hcall, isEmpty_false_ne_nil _ hcond2.1, hcond2.2, rfl,
          Or.inl rfl⟩
      · cases h
    · split at h
      · rename_i t0 hcond
        have hcond2 : t0.isEmpty = false ∧ t0.all isAlnum = true := by
          simpa using hcond
        have hpair := Option.some.inj h
        obtain ⟨hv, htt⟩ : "save".toList = v ∧ t0 = t :=
          ⟨congrArg Prod.fst hpair, congrArg Prod.snd hpair⟩
        subst hv
        subst htt
        exact ⟨hcall, isEmpty_false_ne_nil _ hcond2.1, hcond2.2, rfl,
          Or.inr (Or.inl rfl)⟩
      · cases h
    · split at h
      · rename_i t0 hcond
        have hcond2 : t0.isEmpty = false ∧ t0.all isAlnum = true := by
          simpa using hcond
        have hpair := Option.some.inj h
        obtain ⟨hv, htt⟩ : "view".toList = v ∧ t0 = t :=
          ⟨congrArg Prod.fst hpair, congrArg Prod.snd hpair⟩
        subst hv
        subst htt
        exact ⟨hcall, isEmpty_false_ne_nil _ hcond2.1, hcond2.2, rfl,
          Or.inr (Or.inr rfl)⟩
      · cases h
    · cases h
  · intro v t hv ht ha
    have hne : t.isEmpty = false := by
      cases t with
      | nil => exact absurd rfl ht
      | cons a as => rfl
    rcases hv with rfl | rfl | rfl
    · show validPathMatch ('/' :: 'e' :: 'd' :: 'i' :: 't' :: '/' :: t) = _
      simp [validPathMatch, hne, ha]
    · show validPathMatch ('/' :: 's' :: 'a' :: 'v' :: 'e' :: '/' :: t) = _
      simp [validPathMatch, hne, ha]
    · show validPathMatch ('/' :: 'v' :: 'i' :: 'e' :: 'w' :: '/' :: t) = _
      simp [validPathMatch, hne, ha]

theorem C8_router_guard_witness :
    (validPathMatch "/x y".toList = none
      ∧ makeHandler (fun _ => Response.notFound) "/x y".toList = Response.notFound)
    ∧ (validPathMatch "/view/Home".toList = some ("view".toList, "Home".toList)
      ∧ makeHandler (fun t2 => Response.renderTmpl "view".toList
            { title := t2, body := [], displayBody := [] }) "/view/Home".toList
          = Response.renderTmpl "view".toList
            { title := "Home".toList, body := [], displayBody := [] }
      ∧ "Home".toList ≠ [] ∧ "Home".toList.all isAlnum = true) := by
  have h1 : validPathMatch "/x y".toList = none := by decide
  have h2 : validPathMatch "/view/Home".toList
      = some ("view".toList, "Home".toList) := by decide
  have hc := C8_router_guard.2.1
    (fun t2 => Response.renderTmpl "view".toList
      { title := t2, body := [], displayBody := [] })
    "/view/Home".toList "view".toList "Home".toList h2
  exact ⟨⟨h1, C8_router_guard.1 (fun _ => Response.notFound) "/x y".toList h1⟩,
    ⟨h2, hc.1, hc.2.1, hc.2.2.1⟩⟩

/-- C9: the display body is a deterministic pure function of the raw
body: `viewHandler` never changes the store, the display body it renders
is exactly `render` of the loaded raw body, and two invocations that
load equal raw bodies render identical display bodies. -/
theorem C9_render_purity :
    (∀ (st : Store) (title : List Char), (viewHandler st title).1 = st)
    ∧ (∀ (st : Store) (title : List Char) (p : Page), loadPage st title = some p →
        (viewHandler st title).2
          = Response.renderTmpl "view".toList
              { title := p.title, body := p.body, displayBody := render p.body })
    ∧ (∀ (st1 st2 : Store) (t1 t2 : List Char) (p1 p2 : Page),
        loadPage st1 t1 = some p1 → loadPage st2 t2 = some p2 →
        p1.body = p2.body →
        responseDisplay (viewHandler st1 t1).2
          = responseDisplay (viewHandler st2 t2).2) := by
  refine ⟨?_, ?_, ?_⟩
  · intro st title
    cases hl : loadPage st title <;> simp [viewHandler, hl]
  · intro st title p h
    simp [viewHandler, h]
  · intro st1 st2 t1 t2 p1 p2 h1 h2 hb
    simp [viewHandler, h1, h2, responseDisplay, hb]

theorem C9_render_purity_witness :
    loadPage [(pagePath "A".toList, "hi".toList)] "A".toList
        = some { title := "A".toList, body := "hi".toList, displayBody := [] }
    ∧ responseDisplay
        (viewHandler [(pagePath "A".toList, "hi".toList)] "A".toList).2
      = responseDisplay
        (viewHandler [(pagePath "A".toList, "hi".toList)] "A".toList).2 := by
  have h : loadPage [(pagePath "A".toList, "hi".toList)] "A".toList
      = some { title := "A".toList, body := "hi".toList, displayBody := [] } := by
    decide
  exact ⟨h, C9_render_purity.2.2 _ _ _ _ _ _ h h rfl⟩

/-- C10 counterexample: the request path `/view` is not under any of the
four registered subtrees, yet `ServeMux` answers it with the documented
301 trailing-slash redirect to `/view/` — it never reaches
`indexHandler`, so it is not answered with a 302 to `/view/index` as the
claim states. -/
theorem C10_counterexample :
    muxDispatch "/view".toList = RouteTarget.slashRedirect "/view/".toList
    ∧ muxDispatch "/view".toList ≠ RouteTarget.toIndex := by
  exact ⟨by decide, by decide⟩

/-- C10 (amended): the path `/` reaches `indexHandler`, which answers
with a 302 redirect to `/view/index`; more generally every canonical
path that is not under `/view/`, `/edit/`, `/save/` or `/static/` and is
not one of the bare subtree roots `/view`, `/edit`, `/save`, `/static`
(which get the 301 slash-appending redirect instead) reaches
`indexHandler`. -/
theorem C10_catchall_index :
    muxDispatch "/".toList = RouteTarget.toIndex
    ∧ indexHandler = Response.redirect "/view/index".toList 302
    ∧ (∀ p : List Char,
        ("/view/".toList.isPrefixOf p) = false →
        ("/edit/".toList.isPrefixOf p) = false →
        ("/save/".toList.isPrefixOf p) = false →
        ("/static/".toList.isPrefixOf p) = false →
        (p == "/view".toList) = false → (p == "/edit".toList) = false →
        (p == "/save".toList) = false → (p == "/static".toList) = false →
        muxDispatch p = RouteTarget.toIndex) := by
  refine ⟨by decide, rfl, ?_⟩
  intro p h1 h2 h3 h4 h5 h6 h7 h8
  unfold muxDispatch
  rw [h5, h6, h7, h8, h1, h2, h3, h4]
  simp

theorem C10_catchall_index_witness :
    (("/view/".toList.isPrefixOf "/somewhere".toList) = false
      ∧ ("/somewhere".toList == "/view".toList) = false)
    ∧ muxDispatch "/somewhere".toList = RouteTarget.toIndex :=
  ⟨⟨by decide, by decide⟩,
    C10_catchall_index.2.2 "/somewhere".toList (by decide) (by decide) (by decide)
      (by decide) (by decide) (by decide) (by decide) (by decide)⟩
